import Mathlib

/-!
Verification of the icon-extraction pipeline of kando-menu/gnome-icons
(src/index.js), shallowly embedded in Lean 4.

The script walks an SVG sprite sheet: for every title node it reads the
title text, skips it when the text's first space is at a positive index
(iconName.search(chr 32) > 0), skips it when allIcons[iconName] is
truthy — an entry stored by an earlier occurrence or, through the
prototype chain of the plain object literal, an inherited
Object.prototype member such as toString — crops the title's parent
container to its bounding box
(viewBox "0 0 w h", a top-level group translated by (-x, -y), a clone of
every child plus a clone of any xlink:href-linked element looked up in
the sprite), writes one SVG file per icon and finally one manifest file
mapping each extracted name to its alias list (or [] when the alias
table has no entry).

File writes are modelled as an event list; the external SVG library
calls (bbox, findOne, serialisation) are modelled as data carried by the
sprite; exceptions thrown by the script (a missing href target) are
modelled with Except.
-/

namespace GnomeIcons

/-- Bounding box of a container, as returned by svg.js bbox(). -/
structure BBox where
  x : Int
  y : Int
  width : Int
  height : Int
deriving Repr, DecidableEq

/-- A child element of an icon group: its tag name and its attributes. -/
structure Child where
  tag : String
  attrs : List (String × String)
deriving Repr, DecidableEq

/-- child.attr(name): the attribute's value, or undefined when absent. -/
def Child.attr (c : Child) (name : String) : Option String :=
  c.attrs.lookup name

/-- The parent element of a title node (title.parent()): its tag, the
bounding box svg.js computes for it, and its child elements. -/
structure Container where
  tag : String
  bbox : BBox
  children : List Child
deriving Repr, DecidableEq

/-- One title node of the sprite: its text content
(title.node.childNodes[0].nodeValue) and its parent element. -/
structure TitleNode where
  text : String
  parent : Container
deriving Repr, DecidableEq

/-- The sprite document: the title nodes in document order
(svg.find of title) and the selector-to-element resolution used by
svg.findOne(href). -/
structure Sprite where
  titles : List TitleNode
  linkTargets : List (String × Child)
deriving Repr, DecidableEq

/-- svg.findOne(selector) on the sprite document. -/
def Sprite.findOne (s : Sprite) (sel : String) : Option Child :=
  s.linkTargets.lookup sel

/-- The cropped SVG document built for one icon: the viewBox attribute
(four components), width, height, the translation of the top-level
group, and the elements added to that group, in insertion order. -/
structure CroppedSVG where
  viewBox : Int × Int × Int × Int
  width : Int
  height : Int
  translate : Int × Int
  children : List Child
deriving Repr, DecidableEq

/-- A file-system write performed by extractIcons: either one cropped
icon file or the manifest file. -/
inductive Event where
  | writeIcon (path : String) (content : CroppedSVG)
  | writeMeta (path : String) (manifest : List (String × List String))
deriving Repr, DecidableEq

/-- iconName.search(chr 32) of JavaScript: the index of the first space
character in the string, or -1 when there is no space. -/
def firstSpaceIdx (s : String) : Int :=
  match s.toList.findIdx? (fun c => c = ' ') with
  | some i => (i : Int)
  | none => -1

/-- The path the cropped icon is written to. -/
def iconPath (outDirectory iconName : String) : String :=
  outDirectory ++ "/" ++ iconName ++ ".svg"

/-- The property names every plain JavaScript object literal inherits
from Object.prototype. Accessing one of them on an object without an
own property of that name yields the inherited member, which is a
function (or, for the key starting with two underscores, an object)
and therefore truthy. -/
def protoKeys : List String :=
  ["constructor", "hasOwnProperty", "isPrototypeOf", "propertyIsEnumerable",
    "toLocaleString", "toString", "valueOf", "__defineGetter__",
    "__defineSetter__", "__lookupGetter__", "__lookupSetter__", "__proto__"]

/-- Truthiness of allIcons[iconName] on the plain object allIcons: the
own entries are alias arrays, always truthy, and a name with no own
entry still resolves truthy through the prototype chain when it is an
Object.prototype property name. -/
def allIconsTruthy (m : List (String × List String)) (name : String) : Bool :=
  (m.lookup name).isSome || protoKeys.contains name

/-- iconAliases[iconName] or []: the alias list configured for the
icon, or the empty list when the alias table has no entry (arrays are
always truthy, so a configured list is returned unchanged). The script
evaluates this only for a name whose allIcons access was falsy, hence
never for an Object.prototype property name, so own-property lookup
coincides with the JavaScript access there. -/
def aliasesOrEmpty (aliases : List (String × List String)) (name : String) :
    List String :=
  (aliases.lookup name).getD []

/-- The body of the child-copy loop: each child is cloned into the new
group; when the child carries a truthy xlink:href attribute the linked
element is looked up with svg.findOne and a clone of it is added as
well; a failed lookup throws (linked.clone() on null). -/
def copyChildren (sprite : Sprite) : List Child → Except String (List Child)
  | [] => .ok []
  | child :: rest =>
    match child.attr "xlink:href" with
    | some href =>
      if href = "" then
        (copyChildren sprite rest).map (fun cs => child :: cs)
      else
        match sprite.findOne href with
        | some linked => (copyChildren sprite rest).map (fun cs => child :: linked :: cs)
        | none => .error "TypeError: cannot clone null linked element"
    | none => (copyChildren sprite rest).map (fun cs => child :: cs)

/-- The cropped SVG assembled for a container: viewBox "0 0 w h", width
and height from the bounding box, the top-level group translated by
(-x, -y), and the copied children. -/
def mkCropped (bbox : BBox) (children : List Child) : CroppedSVG :=
  { viewBox := (0, 0, bbox.width, bbox.height)
    width := bbox.width
    height := bbox.height
    translate := (-bbox.x, -bbox.y)
    children := children }

/-- The mutable state of the forEach loop: the allIcons object (in
insertion order) and the file writes performed so far. -/
structure ExtractState where
  manifest : List (String × List String)
  events : List Event
deriving Repr, DecidableEq

/-- One iteration of the forEach loop over the title nodes. The
duplicate guard is the truthiness of allIcons[iconName], which also
fires, through the prototype chain, on an Object.prototype property
name that was never assigned. -/
def processTitle (sprite : Sprite) (aliases : List (String × List String))
    (outDirectory : String) (st : ExtractState) (title : TitleNode) :
    Except String ExtractState :=
  let iconName := title.text
  if 0 < firstSpaceIdx iconName then .ok st
  else if allIconsTruthy st.manifest iconName then .ok st
  else
    let container := title.parent
    let bbox := container.bbox
    match copyChildren sprite container.children with
    | .error e => .error e
    | .ok children =>
      .ok { manifest := st.manifest ++ [(iconName, aliasesOrEmpty aliases iconName)]
            events := st.events ++
              [.writeIcon (iconPath outDirectory iconName) (mkCropped bbox children)] }

/-- The forEach loop itself: iterate in document order; an exception
aborts the remaining iterations. -/
def runTitles (sprite : Sprite) (aliases : List (String × List String))
    (outDirectory : String) : ExtractState → List TitleNode →
    Except String ExtractState
  | st, [] => .ok st
  | st, t :: ts =>
    match processTitle sprite aliases outDirectory st t with
    | .ok stNext => runTitles sprite aliases outDirectory stNext ts
    | .error e => .error e

/-- extractIcons(svg, outDirectory, metaFile): run the loop over every
title node, then write the accumulated allIcons object to the manifest
file. The result is the ordered list of file writes, or the exception
that aborted the run. -/
def extractIcons (sprite : Sprite) (aliases : List (String × List String))
    (outDirectory metaFile : String) : Except String (List Event) :=
  match runTitles sprite aliases outDirectory ⟨[], []⟩ sprite.titles with
  | .ok st => .ok (st.events ++ [.writeMeta metaFile st.manifest])
  | .error e => .error e

/-- An extracted SVG file as loadSVG presents it to optimizeSVGs: root
attributes plus an abstract body. -/
structure SvgFile where
  attrs : List (String × String)
  body : String
deriving Repr, DecidableEq

/-- svg.attr(name, null): remove the attribute from the root element. -/
def removeAttr (f : SvgFile) (name : String) : SvgFile :=
  { f with attrs := f.attrs.filter (fun p => !(p.1 == name)) }

/-- optimizeSVGs(srcDirectory, dstDirectory): for every file of the
source directory, load it, delete the shape-rendering attribute, run
the external SVGO pass (modelled as the function argument optimize) and
write its result to the destination directory. -/
def optimizeSVGs (files : List (String × SvgFile)) (optimize : SvgFile → String)
    (dstDirectory : String) : List (String × String) :=
  files.map (fun f => (dstDirectory ++ "/" ++ f.1, optimize (removeAttr f.2 "shape-rendering")))

/-- Number of icon-file writes to a given path among the events. -/
def countWrites (evs : List Event) (p : String) : Nat :=
  evs.countP (fun e => match e with
    | .writeIcon q _ => q == p
    | .writeMeta _ _ => false)

/-- Number of manifest writes among the events. -/
def countMeta (evs : List Event) : Nat :=
  evs.countP (fun e => match e with
    | .writeIcon _ _ => false
    | .writeMeta _ _ => true)

/-- Number of entries of the manifest carrying a given name. -/
def keyCount (m : List (String × List String)) (n : String) : Nat :=
  m.countP (fun e => e.1 == n)

/-- Distinct icon names are written to distinct paths. -/
theorem iconPath_inj (d : String) {a b : String}
    (h : iconPath d a = iconPath d b) : a = b := by
  unfold iconPath at h
  have h2 := congrArg String.data h
  simp [String.data_append] at h2
  exact String.ext h2

/-- Association-list lookup over an appended list. -/
theorem lookup_append {β : Type} (l₁ l₂ : List (String × β)) (a : String) :
    (l₁ ++ l₂).lookup a = (l₁.lookup a).or (l₂.lookup a) := by
  induction l₁ with
  | nil => simp [List.lookup]
  | cons p l ih =>
    obtain ⟨k, v⟩ := p
    by_cases hk : a = k
    · simp [List.lookup, hk]
    · simp [List.lookup, List.lookup_cons, beq_false_of_ne hk, ih]

/-- The three possible outcomes of one successful loop iteration:
skipped by the space rule, skipped as a duplicate, or processed with a
file write and a manifest entry appended. -/
theorem processTitle_spec {sprite : Sprite} {aliases : List (String × List String)}
    {d : String} {st : ExtractState} {t : TitleNode} {stNext : ExtractState}
    (h : processTitle sprite aliases d st t = .ok stNext) :
    (0 < firstSpaceIdx t.text ∧ stNext = st) ∨
    (¬ 0 < firstSpaceIdx t.text ∧ allIconsTruthy st.manifest t.text = true ∧
      stNext = st) ∨
    (¬ 0 < firstSpaceIdx t.text ∧ allIconsTruthy st.manifest t.text = false ∧
      ∃ cs, copyChildren sprite t.parent.children = .ok cs ∧
        stNext = ⟨st.manifest ++ [(t.text, aliasesOrEmpty aliases t.text)],
          st.events ++ [.writeIcon (iconPath d t.text) (mkCropped t.parent.bbox cs)]⟩) := by
  unfold processTitle at h
  by_cases h1 : 0 < firstSpaceIdx t.text
  · simp only [if_pos h1, Except.ok.injEq] at h
    exact Or.inl ⟨h1, h.symm⟩
  · simp only [if_neg h1] at h
    by_cases h2 : allIconsTruthy st.manifest t.text = true
    · simp only [if_pos h2, Except.ok.injEq] at h
      exact Or.inr (Or.inl ⟨h1, h2, h.symm⟩)
    · simp only [if_neg h2] at h
      have h2f : allIconsTruthy st.manifest t.text = false := by
        rwa [Bool.not_eq_true] at h2
      cases hc : copyChildren sprite t.parent.children with
      | error e => rw [hc] at h; exact absurd h (by simp)
      | ok cs =>
        rw [hc] at h
        simp only [Except.ok.injEq] at h
        exact Or.inr (Or.inr ⟨h1, h2f, cs, rfl, h.symm⟩)

theorem countWrites_append (evs₁ evs₂ : List Event) (p : String) :
    countWrites (evs₁ ++ evs₂) p = countWrites evs₁ p + countWrites evs₂ p := by
  simp [countWrites, List.countP_append]

theorem countWrites_single_eq (p : String) (c : CroppedSVG) :
    countWrites [Event.writeIcon p c] p = 1 := by
  simp [countWrites]

theorem countWrites_single_ne {q p : String} (c : CroppedSVG) (h : q ≠ p) :
    countWrites [Event.writeIcon q c] p = 0 := by
  simp [countWrites, h]

theorem countWrites_meta (p q : String) (m : List (String × List String)) :
    countWrites [Event.writeMeta q m] p = 0 := by
  simp [countWrites]

theorem keyCount_append (m₁ m₂ : List (String × List String)) (n : String) :
    keyCount (m₁ ++ m₂) n = keyCount m₁ n + keyCount m₂ n := by
  simp [keyCount, List.countP_append]

theorem keyCount_single_eq (n : String) (v : List String) :
    keyCount [(n, v)] n = 1 := by
  simp [keyCount]

theorem keyCount_single_ne {k n : String} (v : List String) (h : k ≠ n) :
    keyCount [(k, v)] n = 0 := by
  simp [keyCount, h]

theorem lookup_append_single_isSome (m : List (String × List String))
    (k n : String) (v : List String) :
    ((m ++ [(k, v)]).lookup n).isSome = ((m.lookup n).isSome || n == k) := by
  rw [lookup_append, Option.isSome_or]
  cases hnk : n == k <;> simp [List.lookup, hnk]

theorem lookup_append_single_ne (m : List (String × List String))
    {k n : String} (v : List String) (h : n ≠ k) :
    (m ++ [(k, v)]).lookup n = m.lookup n := by
  rw [lookup_append]
  have hs : List.lookup n [(k, v)] = none := by
    simp [List.lookup, beq_false_of_ne h]
  rw [hs, Option.or_none]

theorem allIconsTruthy_append (m : List (String × List String))
    (k : String) (v : List String) (n : String) :
    allIconsTruthy (m ++ [(k, v)]) n = (allIconsTruthy m n || n == k) := by
  unfold allIconsTruthy
  rw [lookup_append_single_isSome]
  cases h1 : (m.lookup n).isSome <;> cases h2 : n == k <;>
    cases h3 : protoKeys.contains n <;> rfl

theorem allIconsTruthy_of_isSome {m : List (String × List String)} {n : String}
    (h : (m.lookup n).isSome = true) : allIconsTruthy m n = true := by
  unfold allIconsTruthy
  rw [h]
  rfl

/-- Once allIcons[name] is truthy (an own entry, or an inherited
Object.prototype member from the start), the remaining iterations write
no file for the name, add no entry for it, and leave its own-entry
lookup unchanged. -/
theorem runTitles_present {sprite : Sprite} {aliases : List (String × List String)}
    {d name : String} :
    ∀ (ts : List TitleNode) (st s : ExtractState),
    runTitles sprite aliases d st ts = .ok s →
    allIconsTruthy st.manifest name = true →
    countWrites s.events (iconPath d name) = countWrites st.events (iconPath d name) ∧
    keyCount s.manifest name = keyCount st.manifest name ∧
    s.manifest.lookup name = st.manifest.lookup name := by
  intro ts
  induction ts with
  | nil =>
    intro st s h hm
    simp only [runTitles, Except.ok.injEq] at h
    subst h
    exact ⟨rfl, rfl, rfl⟩
  | cons t ts ih =>
    intro st s h hm
    simp only [runTitles] at h
    cases hp : processTitle sprite aliases d st t with
    | error e => rw [hp] at h; exact absurd h (by simp)
    | ok stNext =>
      rw [hp] at h
      rcases processTitle_spec hp with ⟨h1, rfl⟩ | ⟨h1, h2, rfl⟩ | ⟨h1, h2, cs, hc, rfl⟩
      · exact ih _ s h hm
      · exact ih _ s h hm
      · have hne : t.text ≠ name := by
          intro he
          rw [he, hm] at h2
          exact Bool.noConfusion h2
        have hmNext :
            allIconsTruthy (st.manifest ++ [(t.text, aliasesOrEmpty aliases t.text)]) name
              = true := by
          rw [allIconsTruthy_append, hm]
          rfl
        have IH := ih _ s h hmNext
        refine ⟨?_, ?_, ?_⟩
        · rw [IH.1, countWrites_append,
            countWrites_single_ne _ (fun he => hne (iconPath_inj d he))]
          omega
        · rw [IH.2.1, keyCount_append, keyCount_single_ne _ hne]
          omega
        · rw [IH.2.2, lookup_append_single_ne _ _ (fun he => hne he.symm)]

/-- Iterations whose title text never equals the name leave that name's
file writes, manifest entries and allIcons lookup unchanged. -/
theorem runTitles_noOccur {sprite : Sprite} {aliases : List (String × List String)}
    {d name : String} :
    ∀ (ts : List TitleNode) (st s : ExtractState),
    runTitles sprite aliases d st ts = .ok s →
    (∀ t ∈ ts, t.text ≠ name) →
    countWrites s.events (iconPath d name) = countWrites st.events (iconPath d name) ∧
    keyCount s.manifest name = keyCount st.manifest name ∧
    s.manifest.lookup name = st.manifest.lookup name := by
  intro ts
  induction ts with
  | nil =>
    intro st s h _
    simp only [runTitles, Except.ok.injEq] at h
    subst h
    exact ⟨rfl, rfl, rfl⟩
  | cons t ts ih =>
    intro st s h hno
    simp only [runTitles] at h
    cases hp : processTitle sprite aliases d st t with
    | error e => rw [hp] at h; exact absurd h (by simp)
    | ok stNext =>
      rw [hp] at h
      have hnoTail : ∀ u ∈ ts, u.text ≠ name := fun u hu => hno u (List.mem_cons_of_mem _ hu)
      have hne : t.text ≠ name := hno t (List.mem_cons_self _ _)
      rcases processTitle_spec hp with ⟨h1, rfl⟩ | ⟨h1, h2, rfl⟩ | ⟨h1, h2, cs, hc, rfl⟩
      · exact ih _ s h hnoTail
      · exact ih _ s h hnoTail
      · have IH := ih _ s h hnoTail
        refine ⟨?_, ?_, ?_⟩
        · rw [IH.1, countWrites_append,
            countWrites_single_ne _ (fun he => hne (iconPath_inj d he))]
          omega
        · rw [IH.2.1, keyCount_append, keyCount_single_ne _ hne]
          omega
        · rw [IH.2.2, lookup_append_single_ne _ _ (fun he => hne he.symm)]

/-- A name whose first space sits at a positive index is never written,
never enters the manifest and never becomes an allIcons key: every
occurrence of it as a title text is skipped by the space rule. -/
theorem runTitles_skipName {sprite : Sprite} {aliases : List (String × List String)}
    {d name : String} (hn : 0 < firstSpaceIdx name) :
    ∀ (ts : List TitleNode) (st s : ExtractState),
    runTitles sprite aliases d st ts = .ok s →
    countWrites s.events (iconPath d name) = countWrites st.events (iconPath d name) ∧
    keyCount s.manifest name = keyCount st.manifest name ∧
    s.manifest.lookup name = st.manifest.lookup name := by
  intro ts
  induction ts with
  | nil =>
    intro st s h
    simp only [runTitles, Except.ok.injEq] at h
    subst h
    exact ⟨rfl, rfl, rfl⟩
  | cons t ts ih =>
    intro st s h
    simp only [runTitles] at h
    cases hp : processTitle sprite aliases d st t with
    | error e => rw [hp] at h; exact absurd h (by simp)
    | ok stNext =>
      rw [hp] at h
      rcases processTitle_spec hp with ⟨h1, rfl⟩ | ⟨h1, h2, rfl⟩ | ⟨h1, h2, cs, hc, rfl⟩
      · exact ih _ s h
      · exact ih _ s h
      · have hne : t.text ≠ name := by
          intro he
          rw [he] at h1
          exact h1 hn
        have IH := ih _ s h
        refine ⟨?_, ?_, ?_⟩
        · rw [IH.1, countWrites_append,
            countWrites_single_ne _ (fun he => hne (iconPath_inj d he))]
          omega
        · rw [IH.2.1, keyCount_append, keyCount_single_ne _ hne]
          omega
        · rw [IH.2.2, lookup_append_single_ne _ _ (fun he => hne he.symm)]

/-- A name whose allIcons access is still falsy (no own entry and not
an Object.prototype property name), not hit by the space rule and
occurring among the remaining titles gets exactly one more file write
and exactly one more manifest entry, and ends up an own key of
allIcons. -/
theorem runTitles_absent_occur {sprite : Sprite} {aliases : List (String × List String)}
    {d name : String} (hn : ¬ 0 < firstSpaceIdx name) :
    ∀ (ts : List TitleNode) (st s : ExtractState),
    runTitles sprite aliases d st ts = .ok s →
    allIconsTruthy st.manifest name = false →
    (∃ t ∈ ts, t.text = name) →
    countWrites s.events (iconPath d name) = countWrites st.events (iconPath d name) + 1 ∧
    keyCount s.manifest name = keyCount st.manifest name + 1 ∧
    (s.manifest.lookup name).isSome = true := by
  intro ts
  induction ts with
  | nil =>
    intro st s h habs hocc
    exact absurd hocc (by simp)
  | cons t ts ih =>
    intro st s h habs hocc
    simp only [runTitles] at h
    cases hp : processTitle sprite aliases d st t with
    | error e => rw [hp] at h; exact absurd h (by simp)
    | ok stNext =>
      rw [hp] at h
      rcases processTitle_spec hp with ⟨h1, rfl⟩ | ⟨h1, h2, rfl⟩ | ⟨h1, h2, cs, hc, rfl⟩
      · rcases hocc with ⟨u, hu, he⟩
        rcases List.mem_cons.mp hu with rfl | hmem
        · rw [he] at h1
          exact absurd h1 hn
        · exact ih _ s h habs ⟨u, hmem, he⟩
      · rcases hocc with ⟨u, hu, he⟩
        rcases List.mem_cons.mp hu with rfl | hmem
        · rw [he, habs] at h2
          exact Bool.noConfusion h2
        · exact ih _ s h habs ⟨u, hmem, he⟩
      · by_cases he : t.text = name
        · have hmNext :
              ((st.manifest ++ [(t.text, aliasesOrEmpty aliases t.text)]).lookup name).isSome
                = true := by
            rw [lookup_append_single_isSome, beq_iff_eq.mpr he.symm, Bool.or_true]
          have IH := runTitles_present ts _ s h (allIconsTruthy_of_isSome hmNext)
          refine ⟨?_, ?_, ?_⟩
          · rw [IH.1, countWrites_append, he, countWrites_single_eq]
          · rw [IH.2.1, keyCount_append, he, keyCount_single_eq]
          · rw [IH.2.2]
            exact hmNext
        · rcases hocc with ⟨u, hu, heu⟩
          rcases List.mem_cons.mp hu with rfl | hmem
          · exact absurd heu he
          · have habsNext :
                allIconsTruthy (st.manifest ++ [(t.text, aliasesOrEmpty aliases t.text)]) name
                  = false := by
              rw [allIconsTruthy_append, habs, beq_false_of_ne (fun hx => he hx.symm)]
              rfl
            have IH := ih _ s h habsNext ⟨u, hmem, heu⟩
            refine ⟨?_, ?_, IH.2.2⟩
            · rw [IH.1, countWrites_append,
                countWrites_single_ne _ (fun hx => he (iconPath_inj d hx))]
            · rw [IH.2.1, keyCount_append, keyCount_single_ne _ he]

/-- A string without a space has firstSpaceIdx -1 (search returns -1). -/
theorem firstSpaceIdx_no_space {s : String} (h : ∀ c ∈ s.toList, c ≠ ' ') :
    firstSpaceIdx s = -1 := by
  unfold firstSpaceIdx
  have hn : s.toList.findIdx? (fun c => c = ' ') = none := by
    rw [List.findIdx?_eq_none_iff]
    intro c hc
    simp [h c hc]
  rw [hn]

/-- The two shapes one step of the child-copy loop can take: the child
alone is appended (no truthy xlink:href), or the child followed by a
clone of the successfully looked-up linked element. -/
theorem copyChildren_cons_spec {sprite : Sprite} {child : Child} {rest : List Child}
    {cs : List Child} (h : copyChildren sprite (child :: rest) = .ok cs) :
    ((child.attr "xlink:href" = none ∨ child.attr "xlink:href" = some "") ∧
      ∃ tail, copyChildren sprite rest = .ok tail ∧ cs = child :: tail) ∨
    (∃ href linked tail, child.attr "xlink:href" = some href ∧ href ≠ "" ∧
      sprite.findOne href = some linked ∧ copyChildren sprite rest = .ok tail ∧
      cs = child :: linked :: tail) := by
  unfold copyChildren at h
  cases ha : child.attr "xlink:href" with
  | none =>
    rw [ha] at h
    cases hr : copyChildren sprite rest with
    | error e => rw [hr] at h; exact absurd h (by simp [Except.map])
    | ok tail =>
      rw [hr] at h
      simp only [Except.map, Except.ok.injEq] at h
      exact Or.inl ⟨Or.inl rfl, tail, rfl, h.symm⟩
  | some href =>
    rw [ha] at h
    dsimp only at h
    by_cases hemp : href = ""
    · rw [if_pos hemp] at h
      cases hr : copyChildren sprite rest with
      | error e => rw [hr] at h; exact absurd h (by simp [Except.map])
      | ok tail =>
        rw [hr] at h
        simp only [Except.map, Except.ok.injEq] at h
        exact Or.inl ⟨Or.inr (hemp ▸ rfl), tail, rfl, h.symm⟩
    · rw [if_neg hemp] at h
      cases hf : sprite.findOne href with
      | none => rw [hf] at h; exact absurd h (by simp)
      | some linked =>
        rw [hf] at h
        cases hr : copyChildren sprite rest with
        | error e => rw [hr] at h; exact absurd h (by simp [Except.map])
        | ok tail =>
          rw [hr] at h
          simp only [Except.map, Except.ok.injEq] at h
          exact Or.inr ⟨href, linked, tail, rfl, hemp, hf, rfl, h.symm⟩

/-- Every child of the container ends up in the copied children: none
is filtered out, whatever its attributes. -/
theorem copyChildren_mem {sprite : Sprite} :
    ∀ (l cs : List Child), copyChildren sprite l = .ok cs → ∀ c ∈ l, c ∈ cs := by
  intro l
  induction l with
  | nil => intro cs _ c hc; exact absurd hc (by simp)
  | cons child rest ih =>
    intro cs h c hc
    rcases copyChildren_cons_spec h with ⟨_, tail, hr, rfl⟩ |
      ⟨href, linked, tail, _, _, _, hr, rfl⟩
    · rcases List.mem_cons.mp hc with rfl | hmem
      · exact List.mem_cons_self _ _
      · exact List.mem_cons_of_mem _ (ih tail hr c hmem)
    · rcases List.mem_cons.mp hc with rfl | hmem
      · exact List.mem_cons_self _ _
      · exact List.mem_cons_of_mem _ (List.mem_cons_of_mem _ (ih tail hr c hmem))

/-- For every copied child carrying a truthy xlink:href, the element
the sprite resolves for that selector is also among the copied
children. -/
theorem copyChildren_href {sprite : Sprite} :
    ∀ (l cs : List Child), copyChildren sprite l = .ok cs →
    ∀ c ∈ l, ∀ href, c.attr "xlink:href" = some href → href ≠ "" →
    ∃ linked, sprite.findOne href = some linked ∧ linked ∈ cs := by
  intro l
  induction l with
  | nil => intro cs _ c hc; exact absurd hc (by simp)
  | cons child rest ih =>
    intro cs h c hc href ha hne
    rcases copyChildren_cons_spec h with ⟨hnone, tail, hr, rfl⟩ |
      ⟨href2, linked, tail, ha2, hne2, hf2, hr, rfl⟩
    · rcases List.mem_cons.mp hc with rfl | hmem
      · rcases hnone with hx | hx
        · rw [hx] at ha; exact absurd ha (by simp)
        · rw [hx] at ha
          simp only [Option.some.injEq] at ha
          exact absurd ha.symm hne
      · obtain ⟨linked, hf, hmemL⟩ := ih tail hr c hmem href ha hne
        exact ⟨linked, hf, List.mem_cons_of_mem _ hmemL⟩
    · rcases List.mem_cons.mp hc with rfl | hmem
      · rw [ha2] at ha
        simp only [Option.some.injEq] at ha
        subst ha
        exact ⟨linked, hf2, List.mem_cons_of_mem _ (List.mem_cons_self _ _)⟩
      · obtain ⟨linked3, hf3, hmemL⟩ := ih tail hr c hmem href ha hne
        exact ⟨linked3, hf3,
          List.mem_cons_of_mem _ (List.mem_cons_of_mem _ hmemL)⟩

/-- Every file write the loop performs is an icon write produced from
one of the processed title nodes: the path is built from its text and
the content is the crop of its parent container. -/
theorem runTitles_events {sprite : Sprite} {aliases : List (String × List String)}
    {d : String} :
    ∀ (ts : List TitleNode) (st s : ExtractState),
    runTitles sprite aliases d st ts = .ok s →
    ∀ e ∈ s.events, e ∈ st.events ∨
      ∃ t ∈ ts, ∃ cs, copyChildren sprite t.parent.children = .ok cs ∧
        e = .writeIcon (iconPath d t.text) (mkCropped t.parent.bbox cs) := by
  intro ts
  induction ts with
  | nil =>
    intro st s h e he
    simp only [runTitles, Except.ok.injEq] at h
    subst h
    exact Or.inl he
  | cons t ts ih =>
    intro st s h e he
    simp only [runTitles] at h
    cases hp : processTitle sprite aliases d st t with
    | error e2 => rw [hp] at h; exact absurd h (by simp)
    | ok stNext =>
      rw [hp] at h
      rcases processTitle_spec hp with ⟨h1, rfl⟩ | ⟨h1, h2, rfl⟩ | ⟨h1, h2, cs, hc, rfl⟩
      · rcases ih _ s h e he with hin | ⟨u, hu, cs, hcu, heq⟩
        · exact Or.inl hin
        · exact Or.inr ⟨u, List.mem_cons_of_mem _ hu, cs, hcu, heq⟩
      · rcases ih _ s h e he with hin | ⟨u, hu, cs, hcu, heq⟩
        · exact Or.inl hin
        · exact Or.inr ⟨u, List.mem_cons_of_mem _ hu, cs, hcu, heq⟩
      · rcases ih _ s h e he with hin | ⟨u, hu, cs2, hcu, heq⟩
        · rcases List.mem_append.mp hin with hin2 | hin2
          · exact Or.inl hin2
          · simp only [List.mem_singleton] at hin2
            exact Or.inr ⟨t, List.mem_cons_self _ _, cs, hc, hin2⟩
        · exact Or.inr ⟨u, List.mem_cons_of_mem _ hu, cs2, hcu, heq⟩

/-- Every manifest entry the loop adds pairs the text of a processed,
non-space-skipped title with its alias list (or []). -/
theorem runTitles_values {sprite : Sprite} {aliases : List (String × List String)}
    {d : String} :
    ∀ (ts : List TitleNode) (st s : ExtractState),
    runTitles sprite aliases d st ts = .ok s →
    ∀ nv ∈ s.manifest, nv ∈ st.manifest ∨
      (nv.2 = aliasesOrEmpty aliases nv.1 ∧ ¬ 0 < firstSpaceIdx nv.1 ∧
        ∃ t ∈ ts, t.text = nv.1) := by
  intro ts
  induction ts with
  | nil =>
    intro st s h nv hnv
    simp only [runTitles, Except.ok.injEq] at h
    subst h
    exact Or.inl hnv
  | cons t ts ih =>
    intro st s h nv hnv
    simp only [runTitles] at h
    cases hp : processTitle sprite aliases d st t with
    | error e2 => rw [hp] at h; exact absurd h (by simp)
    | ok stNext =>
      rw [hp] at h
      rcases processTitle_spec hp with ⟨h1, rfl⟩ | ⟨h1, h2, rfl⟩ | ⟨h1, h2, cs, hc, rfl⟩
      · rcases ih _ s h nv hnv with hin | ⟨hv, hsk, u, hu, he⟩
        · exact Or.inl hin
        · exact Or.inr ⟨hv, hsk, u, List.mem_cons_of_mem _ hu, he⟩
      · rcases ih _ s h nv hnv with hin | ⟨hv, hsk, u, hu, he⟩
        · exact Or.inl hin
        · exact Or.inr ⟨hv, hsk, u, List.mem_cons_of_mem _ hu, he⟩
      · rcases ih _ s h nv hnv with hin | ⟨hv, hsk, u, hu, he⟩
        · rcases List.mem_append.mp hin with hin2 | hin2
          · exact Or.inl hin2
          · simp only [List.mem_singleton] at hin2
            subst hin2
            exact Or.inr ⟨rfl, h1, t, List.mem_cons_self _ _, rfl⟩
        · exact Or.inr ⟨hv, hsk, u, List.mem_cons_of_mem _ hu, he⟩

/-- Splitting the loop at a list boundary. -/
theorem runTitles_append_eq {sprite : Sprite} {aliases : List (String × List String)}
    {d : String} :
    ∀ (l₁ l₂ : List TitleNode) (st : ExtractState),
    runTitles sprite aliases d st (l₁ ++ l₂) =
      match runTitles sprite aliases d st l₁ with
      | .ok s => runTitles sprite aliases d s l₂
      | .error e => .error e := by
  intro l₁
  induction l₁ with
  | nil => intro l₂ st; simp [runTitles]
  | cons t l₁ ih =>
    intro l₂ st
    simp only [List.cons_append, runTitles]
    cases hp : processTitle sprite aliases d st t with
    | error e => simp
    | ok stNext => simp [ih]

/-- A loop over titles that are all hit by the space rule leaves the
state untouched. -/
theorem runTitles_allSkip {sprite : Sprite} {aliases : List (String × List String)}
    {d : String} :
    ∀ (ts : List TitleNode) (st : ExtractState),
    (∀ t ∈ ts, 0 < firstSpaceIdx t.text) →
    runTitles sprite aliases d st ts = .ok st := by
  intro ts
  induction ts with
  | nil => intro st _; rfl
  | cons t ts ih =>
    intro st hsk
    have hp : processTitle sprite aliases d st t = .ok st := by
      unfold processTitle
      rw [if_pos (hsk t (List.mem_cons_self _ _))]
    simp only [runTitles, hp]
    exact ih st (fun u hu => hsk u (List.mem_cons_of_mem _ hu))

/-- A successful extractIcons run is a successful loop followed by the
single manifest write. -/
theorem extractIcons_ok {sprite : Sprite} {aliases : List (String × List String)}
    {d mf : String} {evs : List Event}
    (h : extractIcons sprite aliases d mf = .ok evs) :
    ∃ st, runTitles sprite aliases d ⟨[], []⟩ sprite.titles = .ok st ∧
      evs = st.events ++ [.writeMeta mf st.manifest] := by
  unfold extractIcons at h
  cases hr : runTitles sprite aliases d ⟨[], []⟩ sprite.titles with
  | error e => rw [hr] at h; exact absurd h (by simp)
  | ok st =>
    rw [hr] at h
    simp only [Except.ok.injEq] at h
    exact ⟨st, rfl, h.symm⟩

/-- The child-copy loop only consults the sprite through findOne. -/
theorem copyChildren_congr (s₁ s₂ : Sprite)
    (hf : ∀ sel, s₁.findOne sel = s₂.findOne sel) :
    ∀ l, copyChildren s₁ l = copyChildren s₂ l := by
  intro l
  induction l with
  | nil => rfl
  | cons child rest ih =>
    simp only [copyChildren, ih, hf]

/-- The whole loop only consults the sprite through findOne. -/
theorem runTitles_congr (s₁ s₂ : Sprite) {aliases : List (String × List String)}
    {d : String} (hf : ∀ sel, s₁.findOne sel = s₂.findOne sel) :
    ∀ (ts : List TitleNode) (st : ExtractState),
    runTitles s₁ aliases d st ts = runTitles s₂ aliases d st ts := by
  intro ts
  induction ts with
  | nil => intro st; rfl
  | cons t ts ih =>
    intro st
    have hp : processTitle s₁ aliases d st t = processTitle s₂ aliases d st t := by
      unfold processTitle
      dsimp only
      rw [copyChildren_congr s₁ s₂ hf t.parent.children]
    simp only [runTitles, hp]
    cases processTitle s₂ aliases d st t with
    | error e => rfl
    | ok stNext => exact ih stNext

/-- Replace the tag of every title's parent container. -/
def retagTitles (f : String → String) (ts : List TitleNode) : List TitleNode :=
  ts.map (fun t => ⟨t.text, ⟨f t.parent.tag, t.parent.bbox, t.parent.children⟩⟩)

/-- The same sprite with every title's parent tag replaced. -/
def retagSprite (f : String → String) (s : Sprite) : Sprite :=
  ⟨retagTitles f s.titles, s.linkTargets⟩

theorem runTitles_retag (sprite : Sprite) (aliases : List (String × List String))
    (d : String) (f : String → String) :
    ∀ (ts : List TitleNode) (st : ExtractState),
    runTitles (retagSprite f sprite) aliases d st (retagTitles f ts) =
      runTitles sprite aliases d st ts := by
  intro ts
  induction ts with
  | nil => intro st; rfl
  | cons t ts ih =>
    intro st
    have hp : processTitle (retagSprite f sprite) aliases d st
        ⟨t.text, ⟨f t.parent.tag, t.parent.bbox, t.parent.children⟩⟩ =
        processTitle sprite aliases d st t := by
      unfold processTitle
      dsimp only
      rw [copyChildren_congr (retagSprite f sprite) sprite (fun sel => rfl)
        t.parent.children]
    simp only [retagTitles, List.map_cons, runTitles, hp]
    cases processTitle sprite aliases d st t with
    | error e => rfl
    | ok stNext => exact ih stNext

/-! Concrete inputs used to settle the claims. -/

def c1child : Child := ⟨"path", [("fill", "none")]⟩

def c1container : Container := ⟨"g", ⟨1, 2, 3, 4⟩, [c1child]⟩

def c1sprite : Sprite := ⟨[⟨"a", c1container⟩], []⟩

/-- Claim C1 is false on the code: extractIcons has no fill:none filter.
On a sprite whose only group holds a single child marked fill:none, the
cropped SVG written for the icon contains that child. -/
theorem C1_counterexample :
    c1child.attr "fill" = some "none" ∧
    extractIcons c1sprite [] "out" "meta" =
      .ok [.writeIcon (iconPath "out" "a") (mkCropped c1container.bbox [c1child]),
        .writeMeta "meta" [("a", [])]] ∧
    c1child ∈ (mkCropped c1container.bbox [c1child]).children := by
  refine ⟨rfl, rfl, ?_⟩
  simp [mkCropped]

/-- Claim C1 (amended): no child of a titled group is excluded from the
crop; every child of the source container, the fill:none ones included,
is cloned into the cropped SVG written for the icon. -/
theorem C1_all_children_copied {sprite : Sprite}
    {aliases : List (String × List String)} {d mf : String} {evs : List Event}
    (h : extractIcons sprite aliases d mf = .ok evs) :
    ∀ p c, Event.writeIcon p c ∈ evs →
      ∃ t ∈ sprite.titles, p = iconPath d t.text ∧
        ∀ child ∈ t.parent.children, child ∈ c.children := by
  obtain ⟨st, hr, rfl⟩ := extractIcons_ok h
  intro p c hmem
  rcases List.mem_append.mp hmem with hin | hin
  · rcases runTitles_events sprite.titles _ st hr _ hin with hin0 | ⟨t, ht, cs, hc, heq⟩
    · exact absurd hin0 (by simp)
    · simp only [Event.writeIcon.injEq] at heq
      refine ⟨t, ht, heq.1, ?_⟩
      intro child hchild
      rw [heq.2]
      exact copyChildren_mem t.parent.children cs hc child hchild
  · simp only [List.mem_singleton] at hin
    exact absurd hin (by simp)

/-- Witness for the amended C1 at the concrete sprite. -/
theorem C1_witness :
    ∃ t ∈ c1sprite.titles, iconPath "out" "a" = iconPath "out" t.text ∧
      ∀ child ∈ t.parent.children,
        child ∈ (mkCropped c1container.bbox [c1child]).children := by
  have h := C1_all_children_copied
    (show extractIcons c1sprite [] "out" "meta" =
      .ok [.writeIcon (iconPath "out" "a") (mkCropped c1container.bbox [c1child]),
        .writeMeta "meta" [("a", [])]] from rfl)
  exact h (iconPath "out" "a") (mkCropped c1container.bbox [c1child]) (by simp)

def c2container : Container := ⟨"g", ⟨0, 0, 5, 6⟩, []⟩

def c2sprite : Sprite := ⟨[⟨" a", c2container⟩], []⟩

/-- Claim C2 is false on the code: iconName.search(chr 32) > 0 does not
skip a title whose first character is the space. The title " a"
contains a space, yet a file and a manifest entry are produced for
it. -/
theorem C2_counterexample :
    (" a").toList.contains ' ' = true ∧
    extractIcons c2sprite [] "out" "meta" =
      .ok [.writeIcon (iconPath "out" " a") (mkCropped c2container.bbox []),
        .writeMeta "meta" [(" a", [])]] := by
  exact ⟨rfl, rfl⟩

/-- Claim C2 (amended): a title is skipped by the space rule exactly
when the first space of its text sits at a positive index; for such a
name no icon file is written and no manifest entry is created. A title
whose first character is a space is not skipped. -/
theorem C2_space_skip {sprite : Sprite} {aliases : List (String × List String)}
    {d mf : String} {evs : List Event} {name : String}
    (h : extractIcons sprite aliases d mf = .ok evs)
    (hn : 0 < firstSpaceIdx name) :
    countWrites evs (iconPath d name) = 0 ∧
    ∀ p m, Event.writeMeta p m ∈ evs → keyCount m name = 0 := by
  obtain ⟨st, hr, rfl⟩ := extractIcons_ok h
  have H := runTitles_skipName hn sprite.titles _ st hr
  constructor
  · rw [countWrites_append, H.1, countWrites_meta]
    simp [countWrites]
  · intro p m hm
    rcases List.mem_append.mp hm with hin | hin
    · rcases runTitles_events sprite.titles _ st hr _ hin with h0 | ⟨t, _, cs, _, heq⟩
      · exact absurd h0 (by simp)
      · exact absurd heq (by simp)
    · simp only [List.mem_singleton, Event.writeMeta.injEq] at hin
      rw [hin.2, H.2.1]
      rfl

def c2skipSprite : Sprite := ⟨[⟨"a b", ⟨"g", ⟨0, 0, 5, 6⟩, []⟩⟩], []⟩

/-- Witness for the amended C2 at a concrete sprite whose single title
is "a b". -/
theorem C2_witness :
    countWrites [Event.writeMeta "meta" []] (iconPath "out" "a b") = 0 ∧
    ∀ p m, Event.writeMeta p m ∈ [Event.writeMeta "meta" []] →
      keyCount m "a b" = 0 := by
  have h := C2_space_skip
    (show extractIcons c2skipSprite [] "out" "meta" =
      .ok [Event.writeMeta "meta" []] from rfl)
    (show (0 : Int) < firstSpaceIdx "a b" by decide)
  exact h

def c3container : Container := ⟨"g", ⟨3, 4, 10, 20⟩, []⟩

def c3sprite : Sprite := ⟨[⟨"a", c3container⟩], []⟩

/-- Claim C3 is false on the code: the viewBox written is
"0 0 width height", not "x y width height". On a group whose bounding
box starts at (3, 4) the written viewBox is (0, 0, 10, 20), which
differs from the bounding box components (3, 4, 10, 20). -/
theorem C3_counterexample :
    extractIcons c3sprite [] "out" "meta" =
      .ok [.writeIcon (iconPath "out" "a") (mkCropped c3container.bbox []),
        .writeMeta "meta" [("a", [])]] ∧
    (mkCropped c3container.bbox []).viewBox ≠
      (c3container.bbox.x, c3container.bbox.y,
        c3container.bbox.width, c3container.bbox.height) := by
  exact ⟨rfl, by decide⟩

/-- Claim C3 (amended): the cropped SVG's viewBox is
(0, 0, width, height) of the source group's bounding box, its width and
height attributes are the bounding box's, and its top-level group is
translated by (-x, -y) of the bounding box. -/
theorem C3_viewBox {sprite : Sprite} {aliases : List (String × List String)}
    {d mf : String} {evs : List Event}
    (h : extractIcons sprite aliases d mf = .ok evs) :
    ∀ p c, Event.writeIcon p c ∈ evs →
      ∃ t ∈ sprite.titles, p = iconPath d t.text ∧
        c.viewBox = (0, 0, t.parent.bbox.width, t.parent.bbox.height) ∧
        c.width = t.parent.bbox.width ∧
        c.height = t.parent.bbox.height ∧
        c.translate = (-t.parent.bbox.x, -t.parent.bbox.y) := by
  obtain ⟨st, hr, rfl⟩ := extractIcons_ok h
  intro p c hmem
  rcases List.mem_append.mp hmem with hin | hin
  · rcases runTitles_events sprite.titles _ st hr _ hin with hin0 | ⟨t, ht, cs, hc, heq⟩
    · exact absurd hin0 (by simp)
    · simp only [Event.writeIcon.injEq] at heq
      exact ⟨t, ht, heq.1, by rw [heq.2]; exact ⟨rfl, rfl, rfl, rfl⟩⟩
  · simp only [List.mem_singleton] at hin
    exact absurd hin (by simp)

/-- Witness for the amended C3 at the concrete sprite. -/
theorem C3_witness :
    ∃ t ∈ c3sprite.titles, iconPath "out" "a" = iconPath "out" t.text ∧
      (mkCropped c3container.bbox []).viewBox =
        (0, 0, t.parent.bbox.width, t.parent.bbox.height) ∧
      (mkCropped c3container.bbox []).width = t.parent.bbox.width ∧
      (mkCropped c3container.bbox []).height = t.parent.bbox.height ∧
      (mkCropped c3container.bbox []).translate =
        (-t.parent.bbox.x, -t.parent.bbox.y) := by
  have h := C3_viewBox
    (show extractIcons c3sprite [] "out" "meta" =
      .ok [.writeIcon (iconPath "out" "a") (mkCropped c3container.bbox []),
        .writeMeta "meta" [("a", [])]] from rfl)
  exact h (iconPath "out" "a") (mkCropped c3container.bbox []) (by simp)

def c4container : Container := ⟨"text", ⟨0, 0, 7, 8⟩, []⟩

def c4sprite : Sprite := ⟨[⟨"a", c4container⟩], []⟩

/-- Claim C4 is false on the code: there is no check on the type of the
title's parent. A title whose parent is not a group container is not
skipped: its icon file is written and its manifest entry is created. -/
theorem C4_counterexample :
    c4container.tag ≠ "g" ∧
    extractIcons c4sprite [] "out" "meta" =
      .ok [.writeIcon (iconPath "out" "a") (mkCropped c4container.bbox []),
        .writeMeta "meta" [("a", [])]] := by
  exact ⟨by decide, rfl⟩

/-- Claim C4 (amended): extractIcons never inspects the element type of
a title's parent; replacing every parent's tag by anything whatsoever
leaves the run's outcome unchanged, so a title with a non-group parent
is processed exactly like one with a group parent, not skipped. -/
theorem C4_parent_tag_irrelevant (sprite : Sprite)
    (aliases : List (String × List String)) (d mf : String)
    (f : String → String) :
    extractIcons (retagSprite f sprite) aliases d mf =
      extractIcons sprite aliases d mf := by
  unfold extractIcons
  have h := runTitles_retag sprite aliases d f sprite.titles ⟨[], []⟩
  rw [show (retagSprite f sprite).titles = retagTitles f sprite.titles from rfl, h]

def c5proto : Container := ⟨"g", ⟨0, 0, 1, 1⟩, []⟩

def c5protoSprite : Sprite := ⟨[⟨"toString", c5proto⟩, ⟨"toString", c5proto⟩], []⟩

/-- Claim C5 is false on the code for a duplicated space-free title
that collides with an Object.prototype property name: allIcons is a
plain object, so allIcons["toString"] is the inherited (truthy)
function even before any assignment, and both occurrences are skipped.
A sprite titling two groups "toString" produces zero icon files and an
empty manifest, not exactly one of each. -/
theorem C5_counterexample :
    (∀ c ∈ "toString".toList, c ≠ ' ') ∧
    2 ≤ c5protoSprite.titles.countP (fun t => t.text == "toString") ∧
    extractIcons c5protoSprite [] "out" "meta" = .ok [Event.writeMeta "meta" []] ∧
    countWrites [Event.writeMeta "meta" []] (iconPath "out" "toString") = 0 ∧
    keyCount [] "toString" = 0 := by
  exact ⟨by decide, by decide, rfl, rfl, rfl⟩

/-- Claim C5 (amended): when the same space-free title text, not an
Object.prototype property name, occurs on two or more title nodes, a
successful extractIcons run writes exactly one icon file for that name
and the manifest holds exactly one entry for it; the allIcons
duplicate check skips every later occurrence. For a name inheriting a
truthy Object.prototype member the guard fires on every occurrence and
nothing is written. -/
theorem C5_duplicate_once {sprite : Sprite} {aliases : List (String × List String)}
    {d mf : String} {evs : List Event} {name : String}
    (h : extractIcons sprite aliases d mf = .ok evs)
    (hfree : ∀ c ∈ name.toList, c ≠ ' ')
    (hproto : protoKeys.contains name = false)
    (hdup : 2 ≤ sprite.titles.countP (fun t => t.text == name)) :
    countWrites evs (iconPath d name) = 1 ∧
    ∀ p m, Event.writeMeta p m ∈ evs → keyCount m name = 1 := by
  obtain ⟨st, hr, rfl⟩ := extractIcons_ok h
  have hn : ¬ 0 < firstSpaceIdx name := by
    rw [firstSpaceIdx_no_space hfree]
    decide
  have hocc : ∃ t ∈ sprite.titles, t.text = name := by
    have hpos : 0 < sprite.titles.countP (fun t => t.text == name) := by omega
    obtain ⟨t, ht, hb⟩ := List.countP_pos_iff.mp hpos
    exact ⟨t, ht, by simpa using hb⟩
  have habs0 : allIconsTruthy (⟨[], []⟩ : ExtractState).manifest name = false := by
    unfold allIconsTruthy
    rw [hproto]
    rfl
  have H := runTitles_absent_occur hn sprite.titles _ st hr habs0 hocc
  constructor
  · rw [countWrites_append, H.1, countWrites_meta]
    simp [countWrites]
  · intro p m hm
    rcases List.mem_append.mp hm with hin | hin
    · rcases runTitles_events sprite.titles _ st hr _ hin with h0 | ⟨t, _, cs, _, heq⟩
      · exact absurd h0 (by simp)
      · exact absurd heq (by simp)
    · simp only [List.mem_singleton, Event.writeMeta.injEq] at hin
      rw [hin.2, H.2.1]
      simp [keyCount]

def c5g1 : Container := ⟨"g", ⟨0, 0, 1, 2⟩, []⟩

def c5g2 : Container := ⟨"g", ⟨5, 5, 9, 9⟩, []⟩

def c5sprite : Sprite := ⟨[⟨"a", c5g1⟩, ⟨"a", c5g2⟩], []⟩

/-- Witness for C5 at a sprite titling two groups "a". -/
theorem C5_witness :
    countWrites [Event.writeIcon (iconPath "out" "a") (mkCropped c5g1.bbox []),
      Event.writeMeta "meta" [("a", [])]] (iconPath "out" "a") = 1 ∧
    ∀ p m, Event.writeMeta p m ∈
      [Event.writeIcon (iconPath "out" "a") (mkCropped c5g1.bbox []),
        Event.writeMeta "meta" [("a", [])]] → keyCount m "a" = 1 := by
  exact C5_duplicate_once
    (show extractIcons c5sprite [] "out" "meta" =
      .ok [Event.writeIcon (iconPath "out" "a") (mkCropped c5g1.bbox []),
        Event.writeMeta "meta" [("a", [])]] from rfl)
    (by decide) (by decide) (by decide)

def c6proto : Container := ⟨"g", ⟨0, 0, 1, 1⟩, []⟩

def c6protoSprite : Sprite := ⟨[⟨"toString", c6proto⟩], []⟩

/-- Claim C6 is false on the code: an icon titled "toString" is
space-free and occurs once (so it is not skipped by the space rule or
as a duplicate), and the alias table configures aliases for it, yet
the written manifest is empty: the allIcons guard resolves the name
through Object.prototype and skips it on first occurrence. -/
theorem C6_counterexample :
    (∀ c ∈ "toString".toList, c ≠ ' ') ∧
    c6protoSprite.titles.countP (fun t => t.text == "toString") = 1 ∧
    extractIcons c6protoSprite [("toString", ["text"])] "out" "meta" =
      .ok [Event.writeMeta "meta" []] ∧
    (([] : List (String × List String)).lookup "toString").isSome = false := by
  exact ⟨by decide, by decide, rfl, rfl⟩

/-- Claim C6 (amended): the manifest written by a successful run maps
every entry name to its alias list from the alias table (or [] when
the table has no entry), every entry name is the text of some
non-skipped title node, and every name occurring space-free among the
titles that is not an Object.prototype property name is present; a
name inheriting a truthy Object.prototype member never enters the
manifest even when space-free. -/
theorem C6_manifest_aliases {sprite : Sprite}
    {aliases : List (String × List String)} {d mf : String} {evs : List Event}
    (h : extractIcons sprite aliases d mf = .ok evs) :
    ∀ p m, Event.writeMeta p m ∈ evs →
      (∀ nv ∈ m, nv.2 = aliasesOrEmpty aliases nv.1 ∧
        ∃ t ∈ sprite.titles, t.text = nv.1 ∧ ¬ 0 < firstSpaceIdx nv.1) ∧
      (∀ name, ¬ 0 < firstSpaceIdx name → protoKeys.contains name = false →
        (∃ t ∈ sprite.titles, t.text = name) →
        (m.lookup name).isSome = true) := by
  obtain ⟨st, hr, rfl⟩ := extractIcons_ok h
  intro p m hm
  have hmeq : m = st.manifest := by
    rcases List.mem_append.mp hm with hin | hin
    · rcases runTitles_events sprite.titles _ st hr _ hin with h0 | ⟨t, _, cs, _, heq⟩
      · exact absurd h0 (by simp)
      · exact absurd heq (by simp)
    · simp only [List.mem_singleton, Event.writeMeta.injEq] at hin
      exact hin.2
  subst hmeq
  constructor
  · intro nv hnv
    rcases runTitles_values sprite.titles _ st hr nv hnv with h0 | ⟨hv, hsk, u, hu, he⟩
    · exact absurd h0 (by simp)
    · exact ⟨hv, u, hu, he, hsk⟩
  · intro name hnsk hproto hocc
    have habs0 : allIconsTruthy (⟨[], []⟩ : ExtractState).manifest name = false := by
      unfold allIconsTruthy
      rw [hproto]
      rfl
    exact (runTitles_absent_occur hnsk sprite.titles _ st hr habs0 hocc).2.2

def c6g1 : Container := ⟨"g", ⟨0, 0, 1, 1⟩, []⟩

def c6g2 : Container := ⟨"g", ⟨1, 1, 2, 2⟩, []⟩

def c6aliases : List (String × List String) := [("a", ["alias-one", "alias-two"])]

def c6sprite : Sprite := ⟨[⟨"a", c6g1⟩, ⟨"b", c6g2⟩], []⟩

/-- Witness for C6: one icon with configured aliases, one without. -/
theorem C6_witness :
    (∀ nv ∈ [("a", ["alias-one", "alias-two"]), ("b", ([] : List String))],
      nv.2 = aliasesOrEmpty c6aliases nv.1 ∧
      ∃ t ∈ c6sprite.titles, t.text = nv.1 ∧ ¬ 0 < firstSpaceIdx nv.1) ∧
    (∀ name, ¬ 0 < firstSpaceIdx name → protoKeys.contains name = false →
      (∃ t ∈ c6sprite.titles, t.text = name) →
      (([("a", ["alias-one", "alias-two"]), ("b", ([] : List String))]).lookup name).isSome
        = true) := by
  have h := C6_manifest_aliases
    (show extractIcons c6sprite c6aliases "out" "meta" =
      .ok [Event.writeIcon (iconPath "out" "a") (mkCropped c6g1.bbox []),
        Event.writeIcon (iconPath "out" "b") (mkCropped c6g2.bbox []),
        Event.writeMeta "meta" [("a", ["alias-one", "alias-two"]), ("b", [])]]
      from rfl)
  exact h "meta" [("a", ["alias-one", "alias-two"]), ("b", [])] (by simp)

/-- Claim C7: for every copied child carrying a truthy xlink:href, a
successful run resolved the referenced element in the sprite document
and the cropped SVG contains both the clone of the child and the clone
of the linked element. -/
theorem C7_href_inlined {sprite : Sprite} {aliases : List (String × List String)}
    {d mf : String} {evs : List Event}
    (h : extractIcons sprite aliases d mf = .ok evs) :
    ∀ p c, Event.writeIcon p c ∈ evs →
      ∃ t ∈ sprite.titles, p = iconPath d t.text ∧
        ∀ child ∈ t.parent.children, ∀ href,
          child.attr "xlink:href" = some href → href ≠ "" →
          child ∈ c.children ∧
          ∃ linked, sprite.findOne href = some linked ∧ linked ∈ c.children := by
  obtain ⟨st, hr, rfl⟩ := extractIcons_ok h
  intro p c hmem
  rcases List.mem_append.mp hmem with hin | hin
  · rcases runTitles_events sprite.titles _ st hr _ hin with hin0 | ⟨t, ht, cs, hc, heq⟩
    · exact absurd hin0 (by simp)
    · simp only [Event.writeIcon.injEq] at heq
      refine ⟨t, ht, heq.1, ?_⟩
      intro child hchild href ha hne
      rw [heq.2]
      exact ⟨copyChildren_mem t.parent.children cs hc child hchild,
        copyChildren_href t.parent.children cs hc child hchild href ha hne⟩
  · simp only [List.mem_singleton] at hin
    exact absurd hin (by simp)

def c7base : Child := ⟨"path", [("id", "base")]⟩

def c7use : Child := ⟨"use", [("xlink:href", "#base")]⟩

def c7container : Container := ⟨"g", ⟨0, 0, 2, 3⟩, [c7use]⟩

def c7sprite : Sprite := ⟨[⟨"a", c7container⟩], [("#base", c7base)]⟩

/-- Witness for C7 at a sprite whose icon references a shared element
through xlink:href. -/
theorem C7_witness :
    ∃ t ∈ c7sprite.titles, iconPath "out" "a" = iconPath "out" t.text ∧
      ∀ child ∈ t.parent.children, ∀ href,
        child.attr "xlink:href" = some href → href ≠ "" →
        child ∈ (mkCropped c7container.bbox [c7use, c7base]).children ∧
        ∃ linked, c7sprite.findOne href = some linked ∧
          linked ∈ (mkCropped c7container.bbox [c7use, c7base]).children := by
  have h := C7_href_inlined
    (show extractIcons c7sprite [] "out" "meta" =
      .ok [Event.writeIcon (iconPath "out" "a")
          (mkCropped c7container.bbox [c7use, c7base]),
        Event.writeMeta "meta" [("a", [])]] from rfl)
  exact h (iconPath "out" "a") (mkCropped c7container.bbox [c7use, c7base]) (by simp)

/-- Claim C8: optimizeSVGs maps every source file to a destination
write whose content is the external optimization pass applied to the
file with its shape-rendering attribute removed, produces nothing else,
and the stripped file carries no shape-rendering attribute. -/
theorem C8_strip_then_optimize (files : List (String × SvgFile))
    (optimize : SvgFile → String) (dst : String) :
    (∀ fe ∈ files,
      (dst ++ "/" ++ fe.1, optimize (removeAttr fe.2 "shape-rendering")) ∈
        optimizeSVGs files optimize dst) ∧
    (∀ out ∈ optimizeSVGs files optimize dst,
      ∃ fe ∈ files,
        out = (dst ++ "/" ++ fe.1, optimize (removeAttr fe.2 "shape-rendering"))) ∧
    (∀ f : SvgFile, ∀ v : String,
      ("shape-rendering", v) ∉ (removeAttr f "shape-rendering").attrs) := by
  refine ⟨?_, ?_, ?_⟩
  · intro fe hfe
    exact List.mem_map_of_mem _ hfe
  · intro out hout
    obtain ⟨fe, hfe, heq⟩ := List.mem_map.mp hout
    exact ⟨fe, hfe, heq.symm⟩
  · intro f v hv
    unfold removeAttr at hv
    simp at hv

def c8file : SvgFile := ⟨[("shape-rendering", "crispEdges"), ("width", "10")], "body"⟩

/-- Witness for C8 at a one-file directory. -/
theorem C8_witness :
    ("dist" ++ "/" ++ "a.svg", SvgFile.body (removeAttr c8file "shape-rendering")) ∈
      optimizeSVGs [("a.svg", c8file)] SvgFile.body "dist" ∧
    ("shape-rendering", "crispEdges") ∉ (removeAttr c8file "shape-rendering").attrs := by
  refine ⟨?_, ?_⟩
  · exact (C8_strip_then_optimize [("a.svg", c8file)] SvgFile.body "dist").1
      ("a.svg", c8file) (by simp)
  · exact (C8_strip_then_optimize [("a.svg", c8file)] SvgFile.body "dist").2.2
      c8file "crispEdges"

/-- Claim C9: when a non-space-skipped title text already occurred on an
earlier title node, the later duplicate node is a no-op: deleting it
from the sprite yields the very same run outcome (same files written,
same manifest), so the output for the name comes from the first node in
traversal order. -/
theorem C9_first_wins {sprite : Sprite} {aliases : List (String × List String)}
    {d mf : String} {pre post : List TitleNode} {t : TitleNode}
    (hsplit : sprite.titles = pre ++ t :: post)
    (hdup : ∃ u ∈ pre, u.text = t.text)
    (hns : ¬ 0 < firstSpaceIdx t.text) :
    extractIcons sprite aliases d mf =
      extractIcons ⟨pre ++ post, sprite.linkTargets⟩ aliases d mf := by
  unfold extractIcons
  rw [hsplit]
  rw [show (⟨pre ++ post, sprite.linkTargets⟩ : Sprite).titles = pre ++ post from rfl]
  rw [runTitles_congr ⟨pre ++ post, sprite.linkTargets⟩ sprite (fun sel => rfl)
    (pre ++ post) ⟨[], []⟩]
  rw [runTitles_append_eq pre (t :: post) ⟨[], []⟩,
    runTitles_append_eq pre post ⟨[], []⟩]
  cases hr : runTitles sprite aliases d ⟨[], []⟩ pre with
  | error e => rfl
  | ok s =>
    have htruthy : allIconsTruthy s.manifest t.text = true := by
      by_cases hproto : protoKeys.contains t.text = true
      · unfold allIconsTruthy
        rw [hproto, Bool.or_true]
      · have hproto2 : protoKeys.contains t.text = false := by
          rwa [Bool.not_eq_true] at hproto
        have habs0 : allIconsTruthy (⟨[], []⟩ : ExtractState).manifest t.text = false := by
          unfold allIconsTruthy
          rw [hproto2]
          rfl
        exact allIconsTruthy_of_isSome
          ((runTitles_absent_occur hns pre ⟨[], []⟩ s hr habs0 hdup).2.2)
    have hp : processTitle sprite aliases d s t = .ok s := by
      unfold processTitle
      rw [if_neg hns, if_pos htruthy]
    simp only [runTitles, hp]

def c9t1 : TitleNode := ⟨"a", ⟨"g", ⟨0, 0, 1, 1⟩, []⟩⟩

def c9t2 : TitleNode := ⟨"a", ⟨"g", ⟨2, 2, 3, 3⟩, []⟩⟩

def c9sprite : Sprite := ⟨[c9t1, c9t2], []⟩

/-- Witness for C9: dropping the second "a"-titled node changes
nothing. -/
theorem C9_witness :
    extractIcons c9sprite [] "out" "meta" =
      extractIcons ⟨[c9t1] ++ [], c9sprite.linkTargets⟩ [] "out" "meta" := by
  exact C9_first_wins rfl ⟨c9t1, by simp, rfl⟩ (by decide)

/-- Claim C10: a successful run performs exactly one manifest write and
it is the last file write of the run; a run whose titles are all hit by
the space rule (in particular a sprite with no titles) still succeeds
and writes the manifest containing the empty object. -/
theorem C10_manifest_once (sprite : Sprite)
    (aliases : List (String × List String)) (d mf : String) :
    (∀ evs, extractIcons sprite aliases d mf = .ok evs →
      countMeta evs = 1 ∧ ∃ m, evs.getLast? = some (.writeMeta mf m)) ∧
    ((∀ t ∈ sprite.titles, 0 < firstSpaceIdx t.text) →
      extractIcons sprite aliases d mf = .ok [.writeMeta mf []]) := by
  constructor
  · intro evs h
    obtain ⟨st, hr, rfl⟩ := extractIcons_ok h
    constructor
    · have hz : List.countP (fun e => match e with
          | Event.writeIcon _ _ => false
          | Event.writeMeta _ _ => true) st.events = 0 := by
        rw [List.countP_eq_zero]
        intro e he
        rcases runTitles_events sprite.titles _ st hr e he with h0 | ⟨t, _, cs, _, heq⟩
        · exact absurd h0 (by simp)
        · rw [heq]
          simp
      simp only [countMeta, List.countP_append, hz]
      simp [List.countP_cons]
    · exact ⟨st.manifest, by simp⟩
  · intro hsk
    unfold extractIcons
    rw [runTitles_allSkip sprite.titles ⟨[], []⟩ hsk]
    rfl

def c10sprite : Sprite := ⟨[⟨"x y", ⟨"g", ⟨0, 0, 1, 1⟩, []⟩⟩], []⟩

/-- Witness for C10 at a sprite whose only title is space-skipped. -/
theorem C10_witness :
    extractIcons c10sprite [] "out" "meta" = .ok [Event.writeMeta "meta" []] ∧
    countMeta [Event.writeMeta "meta" []] = 1 ∧
    ∃ m, [Event.writeMeta "meta" []].getLast? = some (Event.writeMeta "meta" m) := by
  have H := C10_manifest_once c10sprite [] "out" "meta"
  have h2 := H.2 (by decide)
  exact ⟨h2, H.1 [Event.writeMeta "meta" []] h2⟩

end GnomeIcons
